import Mathlib

/-!
Shallow embedding of the write-batch core (`db/write_batch.cc`) of an
LSM-tree key-value storage engine, together with theorems settling the
specification claims about it.

Buffers are modelled as `List Nat` of byte values; machine integers are
`Nat` with explicit `% 2^32` / `% 256` where the C++ code truncates.
Fallible decoding returns `Option` / `Except`.  The `std::atomic` content
flag word is modelled as a plain field (all accesses in the source use
relaxed ordering on a single thread of interest).
-/

namespace RocksModel

/-- Status values surfaced by the write-batch core (`rocksdb::Status`).
Only the constructors this file needs are modelled. -/
inductive Status where
  | ok : Status
  | corruption : String → Status
  | notFound : Status
  | invalidArgument : String → Status
deriving DecidableEq, Repr

namespace ContentFlags

/-- `ContentFlags::DEFERRED` -/
def DEFERRED : Nat := 1

/-- `ContentFlags::HAS_PUT` -/
def HAS_PUT : Nat := 2

/-- `ContentFlags::HAS_DELETE` -/
def HAS_DELETE : Nat := 4

/-- `ContentFlags::HAS_SINGLE_DELETE` -/
def HAS_SINGLE_DELETE : Nat := 8

/-- `ContentFlags::HAS_MERGE` -/
def HAS_MERGE : Nat := 16

end ContentFlags

/-! ## Value-type tags

Modelled from the spec: the tag byte values come from the engine's
`dbformat.h`, which is not under `src/`; the spec (§3.2, §6.1) fixes the
nine record kinds and that each is a distinct one-byte tag. -/

def kTypeDeletion : Nat := 0
def kTypeValue : Nat := 1
def kTypeMerge : Nat := 2
def kTypeLogData : Nat := 3
def kTypeColumnFamilyDeletion : Nat := 4
def kTypeColumnFamilyValue : Nat := 5
def kTypeColumnFamilyMerge : Nat := 6
def kTypeSingleDeletion : Nat := 7
def kTypeColumnFamilySingleDeletion : Nat := 8

/-! ## Codec primitives

Modelled from the spec (§4.1, §6.1): the fixed/varint codecs live in
`util/coding.{h,cc}`, which is not under `src/`.  Fixed32/Fixed64 are
unsigned little-endian; varint32 is LEB128 with the continuation bit in
the MSB, capped at 5 bytes; a length-prefixed slice is a varint32 length
followed by that many raw bytes (decode fails if the length exceeds the
remaining input). -/

/-- Read the byte at index `i`, as the C++ code reads raw memory:
out-of-range indices never occur at call sites kept by the model. -/
def byteAt (l : List Nat) (i : Nat) : Nat := (l.getD i 0) % 256

/-- Modelled from the spec: `DecodeFixed32` (util/coding), little-endian. -/
def decodeFixed32 (l : List Nat) : Nat :=
  byteAt l 0 + byteAt l 1 * 256 + byteAt l 2 * 65536 + byteAt l 3 * 16777216

/-- Modelled from the spec: `DecodeFixed64` (util/coding), little-endian. -/
def decodeFixed64 (l : List Nat) : Nat :=
  byteAt l 0 + byteAt l 1 * 256 + byteAt l 2 * 65536 + byteAt l 3 * 16777216 +
  byteAt l 4 * 4294967296 + byteAt l 5 * 1099511627776 +
  byteAt l 6 * 281474976710656 + byteAt l 7 * 72057594037927936

/-- Modelled from the spec: `EncodeFixed32`, the 4 little-endian bytes of
`n` truncated to 32 bits. -/
def encodeFixed32 (n : Nat) : List Nat :=
  [n % 256, n / 256 % 256, n / 65536 % 256, n / 16777216 % 256]

/-- Modelled from the spec: `EncodeFixed64`, the 8 little-endian bytes of
`n` truncated to 64 bits. -/
def encodeFixed64 (n : Nat) : List Nat :=
  [n % 256, n / 256 % 256, n / 65536 % 256, n / 16777216 % 256,
   n / 4294967296 % 256, n / 1099511627776 % 256,
   n / 281474976710656 % 256, n / 72057594037927936 % 256]

/-- Modelled from the spec: the emit loop of `PutVarint32`.  The fuel `5`
bounds the loop; a 32-bit value needs at most 5 LEB128 groups, so the
fuel-0 branch is unreachable from `putVarint32`. -/
def putVarint32Core : Nat → Nat → List Nat
  | 0, v => [v % 256]
  | fuel + 1, v => if v < 128 then [v] else (v % 128 + 128) :: putVarint32Core fuel (v / 128)

/-- Modelled from the spec: `PutVarint32` (LEB128 encoding of a uint32). -/
def putVarint32 (n : Nat) : List Nat := putVarint32Core 5 (n % 4294967296)

/-- Modelled from the spec: the decode loop of `GetVarint32`.  Walks the
input accumulating 7-bit groups from `shift = 0` upward; fails at end of
input mid-varint or once the shift passes 28 (more than 5 bytes). -/
def getVarint32Core : List Nat → Nat → Nat → Option (Nat × List Nat)
  | [], _, _ => none
  | b :: rest, shift, result =>
    if shift > 28 then none
    else if b % 256 ≥ 128 then
      getVarint32Core rest (shift + 7) ((result ||| ((b % 128) <<< shift)) % 4294967296)
    else some ((result ||| ((b % 256) <<< shift)) % 4294967296, rest)

/-- Modelled from the spec: `GetVarint32`, consuming the decoded bytes. -/
def getVarint32 (input : List Nat) : Option (Nat × List Nat) :=
  getVarint32Core input 0 0

/-- Modelled from the spec: `GetLengthPrefixedSlice` — a varint32 length
followed by that many raw bytes; fails if fewer bytes remain. -/
def getLengthPrefixedSlice (input : List Nat) : Option (List Nat × List Nat) :=
  match getVarint32 input with
  | none => none
  | some (len, rest) =>
    if len ≤ rest.length then some (rest.take len, rest.drop len) else none

/-- Modelled from the spec: `PutLengthPrefixedSlice`. -/
def putLengthPrefixedSlice (value : List Nat) : List Nat :=
  putVarint32 value.length ++ value

/-- The outputs of `ReadRecordFromWriteBatch`: tag, column-family id, key,
value, blob, and the remaining input after the record. -/
structure RecordParts where
  tag : Nat
  column_family : Nat
  key : List Nat
  value : List Nat
  blob : List Nat
  rest : List Nat
deriving DecidableEq, Repr

/-- The tag dispatch of `ReadRecordFromWriteBatch`, after the tag byte has
been consumed.  Branch grouping mirrors the source `switch` with its
intentional fallthroughs. -/
def readRecordTagged (tag : Nat) (afterTag : List Nat) : Except Status RecordParts :=
  if tag = kTypeColumnFamilyValue ∨ tag = kTypeValue then
    match (if tag = kTypeColumnFamilyValue then getVarint32 afterTag else some (0, afterTag)) with
    | none => Except.error (Status.corruption "bad WriteBatch Put")
    | some (cf, in1) =>
      match getLengthPrefixedSlice in1 with
      | none => Except.error (Status.corruption "bad WriteBatch Put")
      | some (key, in2) =>
        match getLengthPrefixedSlice in2 with
        | none => Except.error (Status.corruption "bad WriteBatch Put")
        | some (value, in3) =>
          Except.ok { tag := tag, column_family := cf, key := key, value := value, blob := [], rest := in3 }
  else if tag = kTypeColumnFamilyDeletion ∨ tag = kTypeColumnFamilySingleDeletion ∨
          tag = kTypeDeletion ∨ tag = kTypeSingleDeletion then
    match (if tag = kTypeColumnFamilyDeletion ∨ tag = kTypeColumnFamilySingleDeletion then
             getVarint32 afterTag else some (0, afterTag)) with
    | none => Except.error (Status.corruption "bad WriteBatch Delete")
    | some (cf, in1) =>
      match getLengthPrefixedSlice in1 with
      | none => Except.error (Status.corruption "bad WriteBatch Delete")
      | some (key, in2) =>
        Except.ok { tag := tag, column_family := cf, key := key, value := [], blob := [], rest := in2 }
  else if tag = kTypeColumnFamilyMerge ∨ tag = kTypeMerge then
    match (if tag = kTypeColumnFamilyMerge then getVarint32 afterTag else some (0, afterTag)) with
    | none => Except.error (Status.corruption "bad WriteBatch Merge")
    | some (cf, in1) =>
      match getLengthPrefixedSlice in1 with
      | none => Except.error (Status.corruption "bad WriteBatch Merge")
      | some (key, in2) =>
        match getLengthPrefixedSlice in2 with
        | none => Except.error (Status.corruption "bad WriteBatch Merge")
        | some (value, in3) =>
          Except.ok { tag := tag, column_family := cf, key := key, value := value, blob := [], rest := in3 }
  else if tag = kTypeLogData then
    match getLengthPrefixedSlice afterTag with
    | none => Except.error (Status.corruption "bad WriteBatch Blob")
    | some (blob, in1) =>
      Except.ok { tag := tag, column_family := 0, key := [], value := [], blob := blob, rest := in1 }
  else Except.error (Status.corruption "unknown WriteBatch tag")

/-- `ReadRecordFromWriteBatch`.  The source reads the tag via
`(*input)[0]` and `Slice::operator[]`, which is not under `src/`; on an
empty cursor the behaviour is therefore Modelled from the spec: "Reads
the tag byte (fails if empty)" (§4.2) — the model fails with a corruption
status (the reason string is chosen by the model; the spec fixes only
that the read fails). -/
def readRecordFromWriteBatch (input : List Nat) : Except Status RecordParts :=
  match input with
  | [] => Except.error (Status.corruption "empty WriteBatch record")
  | tagByte :: afterTag => readRecordTagged (tagByte % 256) afterTag

/-- `kHeader`: 8-byte sequence number followed by a 4-byte count. -/
def kHeader : Nat := 12

/-- `SavePoint`: length of `rep_`, record count, and content-flag word at
push time. -/
structure SavePoint where
  size : Nat
  count : Nat
  content_flags : Nat
deriving DecidableEq, Repr

/-- `WriteBatch`.  `save_points_` is `none` for a null `SavePoints*` and
`some stack` for an allocated stack (head = top). -/
structure WriteBatch where
  rep_ : List Nat
  content_flags_ : Nat
  save_points_ : Option (List SavePoint)
deriving DecidableEq, Repr

/-- `WriteBatch::WriteBatch(size_t reserved_bytes)`: a 12-byte zeroed
header (the reservation only affects capacity). -/
def WriteBatch.new : WriteBatch :=
  { rep_ := List.replicate kHeader 0, content_flags_ := 0, save_points_ := none }

/-- `WriteBatch::WriteBatch(const std::string& rep)`: adopt the bytes
verbatim and mark the content flags DEFERRED. -/
def WriteBatch.ofRep (rep : List Nat) : WriteBatch :=
  { rep_ := rep, content_flags_ := ContentFlags.DEFERRED, save_points_ := none }

/-- `WriteBatch::Clear`. -/
def WriteBatch.Clear (b : WriteBatch) : WriteBatch :=
  { rep_ := List.replicate kHeader 0
    content_flags_ := 0
    save_points_ := match b.save_points_ with
      | none => none
      | some _ => some [] }

/-- `WriteBatchInternal::Count`: `DecodeFixed32(rep_.data() + 8)`. -/
def WriteBatchInternal.Count (b : WriteBatch) : Nat :=
  decodeFixed32 (b.rep_.drop 8)

/-- `WriteBatchInternal::SetCount`: `EncodeFixed32(&rep_[8], n)`. -/
def WriteBatchInternal.SetCount (b : WriteBatch) (n : Nat) : WriteBatch :=
  { b with rep_ := b.rep_.take 8 ++ encodeFixed32 n ++ b.rep_.drop 12 }

/-- `WriteBatchInternal::Sequence`: `DecodeFixed64(rep_.data())`. -/
def WriteBatchInternal.Sequence (b : WriteBatch) : Nat :=
  decodeFixed64 b.rep_

/-- `WriteBatchInternal::SetSequence`: `EncodeFixed64(&rep_[0], seq)`. -/
def WriteBatchInternal.SetSequence (b : WriteBatch) (seq : Nat) : WriteBatch :=
  { b with rep_ := encodeFixed64 seq ++ b.rep_.drop 8 }

/-- `WriteBatch::Count`. -/
def WriteBatch.Count (b : WriteBatch) : Nat := WriteBatchInternal.Count b

/-- `WriteBatch::GetDataSize`: `rep_.size()`. -/
def WriteBatch.GetDataSize (b : WriteBatch) : Nat := b.rep_.length

/-- `WriteBatchInternal::Put` (Slice form). -/
def WriteBatchInternal.Put (b : WriteBatch) (column_family_id : Nat)
    (key value : List Nat) : WriteBatch :=
  let b1 := WriteBatchInternal.SetCount b (WriteBatchInternal.Count b + 1)
  { b1 with
    rep_ := b1.rep_ ++
      (if column_family_id = 0 then [kTypeValue]
       else kTypeColumnFamilyValue :: putVarint32 column_family_id) ++
      putLengthPrefixedSlice key ++ putLengthPrefixedSlice value
    content_flags_ := b1.content_flags_ ||| ContentFlags.HAS_PUT }

/-- `WriteBatchInternal::Delete` (Slice form). -/
def WriteBatchInternal.Delete (b : WriteBatch) (column_family_id : Nat)
    (key : List Nat) : WriteBatch :=
  let b1 := WriteBatchInternal.SetCount b (WriteBatchInternal.Count b + 1)
  { b1 with
    rep_ := b1.rep_ ++
      (if column_family_id = 0 then [kTypeDeletion]
       else kTypeColumnFamilyDeletion :: putVarint32 column_family_id) ++
      putLengthPrefixedSlice key
    content_flags_ := b1.content_flags_ ||| ContentFlags.HAS_DELETE }

/-- `WriteBatchInternal::SingleDelete` (Slice form). -/
def WriteBatchInternal.SingleDelete (b : WriteBatch) (column_family_id : Nat)
    (key : List Nat) : WriteBatch :=
  let b1 := WriteBatchInternal.SetCount b (WriteBatchInternal.Count b + 1)
  { b1 with
    rep_ := b1.rep_ ++
      (if column_family_id = 0 then [kTypeSingleDeletion]
       else kTypeColumnFamilySingleDeletion :: putVarint32 column_family_id) ++
      putLengthPrefixedSlice key
    content_flags_ := b1.content_flags_ ||| ContentFlags.HAS_SINGLE_DELETE }

/-- `WriteBatchInternal::Merge` (Slice form). -/
def WriteBatchInternal.Merge (b : WriteBatch) (column_family_id : Nat)
    (key value : List Nat) : WriteBatch :=
  let b1 := WriteBatchInternal.SetCount b (WriteBatchInternal.Count b + 1)
  { b1 with
    rep_ := b1.rep_ ++
      (if column_family_id = 0 then [kTypeMerge]
       else kTypeColumnFamilyMerge :: putVarint32 column_family_id) ++
      putLengthPrefixedSlice key ++ putLengthPrefixedSlice value
    content_flags_ := b1.content_flags_ ||| ContentFlags.HAS_MERGE }

/-- `WriteBatch::PutLogData`: appends a log-data record; neither the
count nor the content flags change. -/
def WriteBatch.PutLogData (b : WriteBatch) (blob : List Nat) : WriteBatch :=
  { b with rep_ := b.rep_ ++ kTypeLogData :: putLengthPrefixedSlice blob }

/-- `WriteBatch::SetSavePoint`: lazily create the stack and push
`(GetDataSize(), Count(), content_flags_)`. -/
def WriteBatch.SetSavePoint (b : WriteBatch) : WriteBatch :=
  { b with
    save_points_ :=
      some (SavePoint.mk (WriteBatch.GetDataSize b) (WriteBatch.Count b) b.content_flags_ ::
            b.save_points_.getD []) }

/-- `std::string::resize` semantics: truncate, or zero-pad up to `n`. -/
def resizeList (l : List Nat) (n : Nat) : List Nat :=
  l.take n ++ List.replicate (n - l.length) 0

/-- `WriteBatch::RollbackToSavePoint`. -/
def WriteBatch.RollbackToSavePoint (b : WriteBatch) : WriteBatch × Status :=
  match b.save_points_ with
  | none => (b, Status.notFound)
  | some [] => (b, Status.notFound)
  | some (savepoint :: rest) =>
    let b1 : WriteBatch := { b with save_points_ := some rest }
    if savepoint.size = b1.rep_.length then
      (b1, Status.ok)
    else if savepoint.size = 0 then
      (WriteBatch.Clear b1, Status.ok)
    else
      let b2 := WriteBatchInternal.SetCount
        { b1 with rep_ := resizeList b1.rep_ savepoint.size } savepoint.count
      ({ b2 with content_flags_ := savepoint.content_flags }, Status.ok)

/-- `WriteBatchInternal::SetContents`. -/
def WriteBatchInternal.SetContents (b : WriteBatch) (contents : List Nat) : WriteBatch :=
  { b with rep_ := contents, content_flags_ := ContentFlags.DEFERRED }

/-- `WriteBatchInternal::Append`. -/
def WriteBatchInternal.Append (dst src : WriteBatch) : WriteBatch :=
  let dst1 := WriteBatchInternal.SetCount dst
    (WriteBatchInternal.Count dst + WriteBatchInternal.Count src)
  { dst1 with
    rep_ := dst1.rep_ ++ src.rep_.drop kHeader
    content_flags_ := dst1.content_flags_ ||| src.content_flags_ }

/-- `WriteBatchInternal::AppendedByteSize`. -/
def WriteBatchInternal.AppendedByteSize (leftByteSize rightByteSize : Nat) : Nat :=
  if leftByteSize = 0 ∨ rightByteSize = 0 then leftByteSize + rightByteSize
  else leftByteSize + rightByteSize - kHeader

/-! ## Visitor protocol (`WriteBatch::Handler`)

A handler with explicit state of type `σ`; each callback returns the new
state and a status, mirroring the mutable C++ handler object. -/

structure Handler (σ : Type) where
  PutCF : σ → Nat → List Nat → List Nat → σ × Status
  DeleteCF : σ → Nat → List Nat → σ × Status
  SingleDeleteCF : σ → Nat → List Nat → σ × Status
  MergeCF : σ → Nat → List Nat → List Nat → σ × Status
  LogData : σ → List Nat → σ
  Continue : σ → Bool

/-- The `switch (tag)` dispatch inside `WriteBatch::Iterate`: new handler
state, status, and whether `found` is incremented. -/
def dispatchRecord {σ : Type} (h : Handler σ) (s : σ) (r : RecordParts) : σ × Status × Bool :=
  if r.tag = kTypeColumnFamilyValue ∨ r.tag = kTypeValue then
    let res := h.PutCF s r.column_family r.key r.value
    (res.1, res.2, true)
  else if r.tag = kTypeColumnFamilyDeletion ∨ r.tag = kTypeDeletion then
    let res := h.DeleteCF s r.column_family r.key
    (res.1, res.2, true)
  else if r.tag = kTypeColumnFamilySingleDeletion ∨ r.tag = kTypeSingleDeletion then
    let res := h.SingleDeleteCF s r.column_family r.key
    (res.1, res.2, true)
  else if r.tag = kTypeColumnFamilyMerge ∨ r.tag = kTypeMerge then
    let res := h.MergeCF s r.column_family r.key r.value
    (res.1, res.2, true)
  else if r.tag = kTypeLogData then
    (h.LogData s r.blob, Status.ok, false)
  else (s, Status.corruption "unknown WriteBatch tag", false)

/-- The final integrity gate of `WriteBatch::Iterate`:
`found != WriteBatchInternal::Count(this)`. -/
def wrongCountCheck (found hdrCount : Nat) : Status :=
  if found = hdrCount then Status.ok
  else Status.corruption "WriteBatch has wrong count"

/-- The record loop of `WriteBatch::Iterate`.  `fuel` bounds the number
of iterations; each iteration consumes at least one input byte, so
`Iterate` passes `input.length + 1` and the fuel-0 branch is unreachable
(its result matches the loop-exit result so the bound is inessential). -/
def iterateLoop {σ : Type} (h : Handler σ) (hdrCount : Nat) :
    Nat → σ → List Nat → Nat → σ × Status
  | 0, s, _, found => (s, wrongCountCheck found hdrCount)
  | fuel + 1, s, input, found =>
    if input = [] ∨ h.Continue s = false then (s, wrongCountCheck found hdrCount)
    else
      match readRecordFromWriteBatch input with
      | Except.error st => (s, st)
      | Except.ok r =>
        let d := dispatchRecord h s r
        if d.2.1 = Status.ok then
          iterateLoop h hdrCount fuel d.1 r.rest (if d.2.2 then found + 1 else found)
        else (d.1, d.2.1)

/-- `WriteBatch::Iterate`. -/
def WriteBatch.Iterate {σ : Type} (b : WriteBatch) (h : Handler σ) (s : σ) : σ × Status :=
  if b.rep_.length < kHeader then
    (s, Status.corruption "malformed WriteBatch (too small)")
  else
    iterateLoop h (WriteBatchInternal.Count b) (b.rep_.length + 1) s (b.rep_.drop kHeader) 0

/-- `BatchContentClassifier`: state is the accumulated `content_flags`. -/
def classifierHandler : Handler Nat :=
  { PutCF := fun s _ _ _ => (s ||| ContentFlags.HAS_PUT, Status.ok)
    DeleteCF := fun s _ _ => (s ||| ContentFlags.HAS_DELETE, Status.ok)
    SingleDeleteCF := fun s _ _ => (s ||| ContentFlags.HAS_SINGLE_DELETE, Status.ok)
    MergeCF := fun s _ _ _ => (s ||| ContentFlags.HAS_MERGE, Status.ok)
    LogData := fun s _ => s
    Continue := fun _ => true }

/-- `WriteBatch::ComputeContentFlags`: if DEFERRED is set, run the
classifier (dropping the status `Iterate` returns) and store the result. -/
def WriteBatch.ComputeContentFlags (b : WriteBatch) : Nat × WriteBatch :=
  if b.content_flags_ &&& ContentFlags.DEFERRED ≠ 0 then
    let rv := (WriteBatch.Iterate b classifierHandler 0).1
    (rv, { b with content_flags_ := rv })
  else (b.content_flags_, b)

/-- `WriteBatch::HasPut` (also returning the updated batch, since the
lazy recomputation stores into the mutable flag word). -/
def WriteBatch.HasPut (b : WriteBatch) : Bool × WriteBatch :=
  let r := WriteBatch.ComputeContentFlags b
  (decide ((r.1 &&& ContentFlags.HAS_PUT) ≠ 0), r.2)

/-- `WriteBatch::HasDelete`. -/
def WriteBatch.HasDelete (b : WriteBatch) : Bool × WriteBatch :=
  let r := WriteBatch.ComputeContentFlags b
  (decide ((r.1 &&& ContentFlags.HAS_DELETE) ≠ 0), r.2)

/-- `WriteBatch::HasSingleDelete`. -/
def WriteBatch.HasSingleDelete (b : WriteBatch) : Bool × WriteBatch :=
  let r := WriteBatch.ComputeContentFlags b
  (decide ((r.1 &&& ContentFlags.HAS_SINGLE_DELETE) ≠ 0), r.2)

/-- `WriteBatch::HasMerge`. -/
def WriteBatch.HasMerge (b : WriteBatch) : Bool × WriteBatch :=
  let r := WriteBatch.ComputeContentFlags b
  (decide ((r.1 &&& ContentFlags.HAS_MERGE) ≠ 0), r.2)

/-! ## Memory-table applier (`MemTableInserter`)

The external collaborators (`ColumnFamilyMemTables`, `MemTable`, `DBImpl`,
the in-place callback, and the merge operator) are modelled as an oracle
environment `MemEnv`: each collaborator call is a pure function of the
arguments the source passes it.  The inserter state carries the sequence
number and the trace of `MemTable::Add` / `MemTable::Update` calls. -/

/-- `UpdateStatus` returned by the user in-place callback. -/
inductive UpdateStatus where
  | UPDATE_FAILED : UpdateStatus
  | UPDATED_INPLACE : UpdateStatus
  | UPDATED : UpdateStatus
deriving DecidableEq, Repr

/-- One memtable mutation performed by the applier. -/
inductive MemOp where
  | add (seq : Nat) (type : Nat) (key value : List Nat) : MemOp
  | update (seq : Nat) (key value : List Nat) : MemOp
deriving DecidableEq, Repr

/-- Oracle for the applier's external collaborators.  Arguments mirror
what the source passes at each call site (the snapshot-pinned calls take
the current sequence number). -/
structure MemEnv where
  seekFound : Nat → Bool
  getLogNumber : Nat → Nat
  inplaceUpdateSupport : Nat → Bool
  hasInplaceCallback : Nat → Bool
  updateCallbackHandled : Nat → List Nat → List Nat → Bool
  dbGetFound : Nat → List Nat → Bool
  dbGetValue : Nat → List Nat → List Nat
  inplaceCallbackStatus : Bool → List Nat → List Nat → UpdateStatus
  inplaceCallbackPrev : Bool → List Nat → List Nat → List Nat
  inplaceCallbackMerged : Bool → List Nat → List Nat → List Nat
  filterDeletes : Nat → Bool
  keyMayExist : Nat → List Nat → Bool
  maxSuccessiveMerges : Nat → Nat
  countSuccessiveMergeEntries : List Nat → Nat → Nat
  dbPresent : Bool
  fullMergeOk : List Nat → List Nat → List Nat → Bool
  fullMergeResult : List Nat → List Nat → List Nat → List Nat

/-- `MemTableInserter` state. -/
structure MemTableInserter where
  sequence_ : Nat
  ignore_missing_column_families_ : Bool
  log_number_ : Nat
  dont_filter_deletes_ : Bool
  concurrent_memtable_writes_ : Bool
  memOps : List MemOp
deriving Repr

/-- `MemTableInserter::SeekToColumnFamily`. -/
def MemTableInserter.SeekToColumnFamily (env : MemEnv) (ins : MemTableInserter)
    (column_family_id : Nat) : Bool × Status :=
  if env.seekFound column_family_id = false then
    (false,
     if ins.ignore_missing_column_families_ then Status.ok
     else Status.invalidArgument "Invalid column family specified in write batch")
  else if ins.log_number_ ≠ 0 ∧ ins.log_number_ < env.getLogNumber column_family_id then
    (false, Status.ok)
  else (true, Status.ok)

/-- `MemTableInserter::PutCF`. -/
def MemTableInserter.PutCF (env : MemEnv) (ins : MemTableInserter)
    (column_family_id : Nat) (key value : List Nat) : MemTableInserter × Status :=
  match MemTableInserter.SeekToColumnFamily env ins column_family_id with
  | (false, seek_status) => ({ ins with sequence_ := ins.sequence_ + 1 }, seek_status)
  | (true, _) =>
    let ins1 :=
      if env.inplaceUpdateSupport column_family_id = false then
        { ins with memOps := ins.memOps ++ [MemOp.add ins.sequence_ kTypeValue key value] }
      else if env.hasInplaceCallback column_family_id = false then
        { ins with memOps := ins.memOps ++ [MemOp.update ins.sequence_ key value] }
      else if env.updateCallbackHandled ins.sequence_ key value then ins
      else
        let found := env.dbGetFound ins.sequence_ key
        let prev_value := env.dbGetValue ins.sequence_ key
        match env.inplaceCallbackStatus found prev_value value with
        | UpdateStatus.UPDATED_INPLACE =>
          { ins with memOps := ins.memOps ++
              [MemOp.add ins.sequence_ kTypeValue key (env.inplaceCallbackPrev found prev_value value)] }
        | UpdateStatus.UPDATED =>
          { ins with memOps := ins.memOps ++
              [MemOp.add ins.sequence_ kTypeValue key (env.inplaceCallbackMerged found prev_value value)] }
        | UpdateStatus.UPDATE_FAILED => ins
    ({ ins1 with sequence_ := ins1.sequence_ + 1 }, Status.ok)

/-- `MemTableInserter::DeleteImpl`.  Note: when the pre-existence delete
filter decides the key cannot exist, the source returns OK without
touching `sequence_`. -/
def MemTableInserter.DeleteImpl (env : MemEnv) (ins : MemTableInserter)
    (column_family_id : Nat) (key : List Nat) (delete_type : Nat) :
    MemTableInserter × Status :=
  match MemTableInserter.SeekToColumnFamily env ins column_family_id with
  | (false, seek_status) => ({ ins with sequence_ := ins.sequence_ + 1 }, seek_status)
  | (true, _) =>
    if ins.dont_filter_deletes_ = false ∧ env.filterDeletes column_family_id = true then
      if env.keyMayExist ins.sequence_ key = false then (ins, Status.ok)
      else
        ({ ins with
             memOps := ins.memOps ++ [MemOp.add ins.sequence_ delete_type key []]
             sequence_ := ins.sequence_ + 1 }, Status.ok)
    else
      ({ ins with
           memOps := ins.memOps ++ [MemOp.add ins.sequence_ delete_type key []]
           sequence_ := ins.sequence_ + 1 }, Status.ok)

/-- `MemTableInserter::DeleteCF`. -/
def MemTableInserter.DeleteCF (env : MemEnv) (ins : MemTableInserter)
    (column_family_id : Nat) (key : List Nat) : MemTableInserter × Status :=
  MemTableInserter.DeleteImpl env ins column_family_id key kTypeDeletion

/-- `MemTableInserter::SingleDeleteCF`. -/
def MemTableInserter.SingleDeleteCF (env : MemEnv) (ins : MemTableInserter)
    (column_family_id : Nat) (key : List Nat) : MemTableInserter × Status :=
  MemTableInserter.DeleteImpl env ins column_family_id key kTypeSingleDeletion

/-- `MemTableInserter::MergeCF`. -/
def MemTableInserter.MergeCF (env : MemEnv) (ins : MemTableInserter)
    (column_family_id : Nat) (key value : List Nat) : MemTableInserter × Status :=
  match MemTableInserter.SeekToColumnFamily env ins column_family_id with
  | (false, seek_status) => ({ ins with sequence_ := ins.sequence_ + 1 }, seek_status)
  | (true, _) =>
    let perform_merge : Bool :=
      decide (0 < env.maxSuccessiveMerges column_family_id) && env.dbPresent &&
      decide (env.maxSuccessiveMerges column_family_id ≤
              env.countSuccessiveMergeEntries key ins.sequence_)
    let ins1 :=
      if perform_merge then
        let get_value := env.dbGetValue ins.sequence_ key
        if env.fullMergeOk key get_value value then
          { ins with memOps := ins.memOps ++
              [MemOp.add ins.sequence_ kTypeValue key (env.fullMergeResult key get_value value)] }
        else
          { ins with memOps := ins.memOps ++ [MemOp.add ins.sequence_ kTypeMerge key value] }
      else
        { ins with memOps := ins.memOps ++ [MemOp.add ins.sequence_ kTypeMerge key value] }
    ({ ins1 with sequence_ := ins1.sequence_ + 1 }, Status.ok)

/-- The applier packaged as a visitor, as `WriteBatchInternal::InsertInto`
builds it for `WriteBatch::Iterate`. -/
def memTableInserterHandler (env : MemEnv) : Handler MemTableInserter :=
  { PutCF := fun ins cf key value => MemTableInserter.PutCF env ins cf key value
    DeleteCF := fun ins cf key => MemTableInserter.DeleteCF env ins cf key
    SingleDeleteCF := fun ins cf key => MemTableInserter.SingleDeleteCF env ins cf key
    MergeCF := fun ins cf key value => MemTableInserter.MergeCF env ins cf key value
    LogData := fun ins _ => ins
    Continue := fun _ => true }

/-! ## Copy semantics of the save-point stack

`WriteBatch::WriteBatch(const WriteBatch& src)` initialises
`save_points_(src.save_points_)` — it copies the raw owning pointer.  To
observe the sharing this creates, this model makes the heap explicit: a
`World` is the heap of allocated `SavePoints` objects and a batch holds
an optional index into it. -/

/-- The heap of allocated `SavePoints` stacks. -/
abbrev SavePointsHeap := List (List SavePoint)

/-- A `WriteBatch` whose `save_points_` member is a pointer (heap index). -/
structure WriteBatchRef where
  rep_ : List Nat
  content_flags_ : Nat
  save_points_ : Option Nat
deriving DecidableEq, Repr

/-- The save-point stack a batch observes through its pointer. -/
def refStack (w : SavePointsHeap) (b : WriteBatchRef) : List SavePoint :=
  match b.save_points_ with
  | none => []
  | some i => w.getD i []

/-- `WriteBatch::WriteBatch(const WriteBatch& src)` (line 108-111): the
buffer and flag word are copied by value, `save_points_` by pointer. -/
def refCopy (b : WriteBatchRef) : WriteBatchRef :=
  { rep_ := b.rep_, content_flags_ := b.content_flags_, save_points_ := b.save_points_ }

/-- `WriteBatch::SetSavePoint` on the heap model: allocate on first use,
then push through the pointer. -/
def refSetSavePoint (w : SavePointsHeap) (b : WriteBatchRef) :
    SavePointsHeap × WriteBatchRef :=
  let sp := SavePoint.mk b.rep_.length (decodeFixed32 (b.rep_.drop 8)) b.content_flags_
  match b.save_points_ with
  | none => (w ++ [[sp]], { b with save_points_ := some w.length })
  | some i => (w.set i (sp :: w.getD i []), b)

/-- `WriteBatch::Clear` on the heap model. -/
def refClear (w : SavePointsHeap) (b : WriteBatchRef) :
    SavePointsHeap × WriteBatchRef :=
  let w1 := match b.save_points_ with
    | none => w
    | some i => w.set i []
  (w1, { b with rep_ := List.replicate kHeader 0, content_flags_ := 0 })

/-- `WriteBatch::RollbackToSavePoint` on the heap model. -/
def refRollbackToSavePoint (w : SavePointsHeap) (b : WriteBatchRef) :
    SavePointsHeap × WriteBatchRef × Status :=
  match b.save_points_ with
  | none => (w, b, Status.notFound)
  | some i =>
    match w.getD i [] with
    | [] => (w, b, Status.notFound)
    | savepoint :: rest =>
      let w1 := w.set i rest
      if savepoint.size = b.rep_.length then (w1, b, Status.ok)
      else if savepoint.size = 0 then
        let r := refClear w1 b
        (r.1, r.2, Status.ok)
      else
        let rep1 := resizeList b.rep_ savepoint.size
        (w1,
         { b with
             rep_ := rep1.take 8 ++ encodeFixed32 savepoint.count ++ rep1.drop 12
             content_flags_ := savepoint.content_flags },
         Status.ok)

/-! ## Operation sequences for the save-point claims -/

/-- The operations a client can run on a batch between a save-point push
and the rollback: the append operations and the lazy content-flag
queries (which may clear DEFERRED). -/
inductive BatchOp where
  | put (cf : Nat) (key value : List Nat) : BatchOp
  | del (cf : Nat) (key : List Nat) : BatchOp
  | singleDel (cf : Nat) (key : List Nat) : BatchOp
  | merge (cf : Nat) (key value : List Nat) : BatchOp
  | putLogData (blob : List Nat) : BatchOp
  | queryFlags : BatchOp

/-- Run one `BatchOp`. -/
def applyOp : BatchOp → WriteBatch → WriteBatch
  | BatchOp.put cf key value, b => WriteBatchInternal.Put b cf key value
  | BatchOp.del cf key, b => WriteBatchInternal.Delete b cf key
  | BatchOp.singleDel cf key, b => WriteBatchInternal.SingleDelete b cf key
  | BatchOp.merge cf key value, b => WriteBatchInternal.Merge b cf key value
  | BatchOp.putLogData blob, b => WriteBatch.PutLogData b blob
  | BatchOp.queryFlags, b => (WriteBatch.ComputeContentFlags b).2

/-- Run a sequence of `BatchOp`s in order. -/
def applyOps : List BatchOp → WriteBatch → WriteBatch
  | [], b => b
  | op :: ops, b => applyOps ops (applyOp op b)

/-! ## Clean decoding of a payload -/

/-- `DecodesTo input recs`: repeated `ReadRecordFromWriteBatch` consumes
all of `input`, yielding exactly the records `recs` ("all records decode
cleanly"). -/
inductive DecodesTo : List Nat → List RecordParts → Prop
  | nil : DecodesTo [] []
  | cons {input : List Nat} {r : RecordParts} {rs : List RecordParts} :
      readRecordFromWriteBatch input = Except.ok r →
      DecodesTo r.rest rs → DecodesTo input (r :: rs)

/-- Number of non-log-data records in a decoded record list. -/
def nonLogCount (recs : List RecordParts) : Nat :=
  (recs.filter (fun r => decide (r.tag ≠ kTypeLogData))).length

/-- A handler whose callbacks always return OK and that never stops:
the hypotheses under which iteration runs to exhaustion. -/
def BenignHandler {σ : Type} (h : Handler σ) : Prop :=
  (∀ s cf key value, (h.PutCF s cf key value).2 = Status.ok) ∧
  (∀ s cf key, (h.DeleteCF s cf key).2 = Status.ok) ∧
  (∀ s cf key, (h.SingleDeleteCF s cf key).2 = Status.ok) ∧
  (∀ s cf key value, (h.MergeCF s cf key value).2 = Status.ok) ∧
  (∀ s, h.Continue s = true)

/-- The all-OK handler with trivial state. -/
def unitHandler : Handler Unit :=
  { PutCF := fun _ _ _ _ => ((), Status.ok)
    DeleteCF := fun _ _ _ => ((), Status.ok)
    SingleDeleteCF := fun _ _ _ => ((), Status.ok)
    MergeCF := fun _ _ _ _ => ((), Status.ok)
    LogData := fun _ _ => ()
    Continue := fun _ => true }

/-! ## Concrete fixtures used by witnesses and counterexamples -/

/-- A handler that counts dispatched records and stops after the first. -/
def stopAfterOneHandler : Handler Nat :=
  { PutCF := fun s _ _ _ => (s + 1, Status.ok)
    DeleteCF := fun s _ _ => (s + 1, Status.ok)
    SingleDeleteCF := fun s _ _ => (s + 1, Status.ok)
    MergeCF := fun s _ _ _ => (s + 1, Status.ok)
    LogData := fun s _ => s
    Continue := fun s => decide (s < 1) }

/-- A well-formed batch holding two puts. -/
def twoPutBatch : WriteBatch :=
  WriteBatchInternal.Put (WriteBatchInternal.Put WriteBatch.new 0 [97] [49]) 0 [98] [50]

/-- A batch adopted from raw bytes (content flags DEFERRED): header with
count 1, then one Value record `("a","b")`. -/
def deferredOnePutBatch : WriteBatch :=
  WriteBatch.ofRep ([0, 0, 0, 0, 0, 0, 0, 0] ++ [1, 0, 0, 0] ++ [1, 1, 97, 1, 98])

/-- A corrupt batch: header count 2, one valid Value record, then an
unknown tag byte. -/
def corruptTailBatch : WriteBatch :=
  WriteBatch.ofRep ([0, 0, 0, 0, 0, 0, 0, 0] ++ [2, 0, 0, 0] ++ [1, 1, 97, 1, 98] ++ [200])

/-- Applier environment in which every seek succeeds and the delete
filter rejects every key. -/
def filterEverythingEnv : MemEnv :=
  { seekFound := fun _ => true
    getLogNumber := fun _ => 0
    inplaceUpdateSupport := fun _ => false
    hasInplaceCallback := fun _ => false
    updateCallbackHandled := fun _ _ _ => false
    dbGetFound := fun _ _ => false
    dbGetValue := fun _ _ => []
    inplaceCallbackStatus := fun _ _ _ => UpdateStatus.UPDATE_FAILED
    inplaceCallbackPrev := fun _ _ _ => []
    inplaceCallbackMerged := fun _ _ _ => []
    filterDeletes := fun _ => true
    keyMayExist := fun _ _ => false
    maxSuccessiveMerges := fun _ => 0
    countSuccessiveMergeEntries := fun _ _ => 0
    dbPresent := true
    fullMergeOk := fun _ _ _ => true
    fullMergeResult := fun _ _ _ => [] }

/-- An applier at sequence 5 outside recovery, with delete filtering on. -/
def inserterAtFive : MemTableInserter :=
  { sequence_ := 5
    ignore_missing_column_families_ := false
    log_number_ := 0
    dont_filter_deletes_ := false
    concurrent_memtable_writes_ := false
    memOps := [] }

/-! ## General lemmas about the codecs -/

theorem getVarint32Core_rest_lt :
    ∀ (input : List Nat) (shift result v : Nat) (rest : List Nat),
      getVarint32Core input shift result = some (v, rest) → rest.length < input.length := by
  intro input
  induction input with
  | nil => intro shift result v rest h; simp [getVarint32Core] at h
  | cons b tl ih =>
    intro shift result v rest h
    simp only [getVarint32Core] at h
    split at h
    · simp at h
    · split at h
      · exact Nat.lt_trans (ih _ _ _ _ h) (by simp)
      · simp only [Option.some.injEq, Prod.mk.injEq] at h
        simp [← h.2]

theorem getVarint32_rest_lt (input : List Nat) (v : Nat) (rest : List Nat)
    (h : getVarint32 input = some (v, rest)) : rest.length < input.length :=
  getVarint32Core_rest_lt input 0 0 v rest h

theorem getLengthPrefixedSlice_rest_lt (input : List Nat) (s rest : List Nat)
    (h : getLengthPrefixedSlice input = some (s, rest)) : rest.length < input.length := by
  simp only [getLengthPrefixedSlice] at h
  split at h
  · simp at h
  · rename_i len mid hv
    split at h
    · simp only [Option.some.injEq, Prod.mk.injEq] at h
      have hm := getVarint32_rest_lt input len mid hv
      have : rest.length ≤ mid.length := by
        rw [← h.2]; simp [Nat.sub_le]
      omega
    · simp at h

theorem ifVarint_rest_le (c : Prop) [Decidable c] (afterTag : List Nat)
    (cf : Nat) (in1 : List Nat)
    (hv : (if c then getVarint32 afterTag else some (0, afterTag)) = some (cf, in1)) :
    in1.length ≤ afterTag.length := by
  split at hv
  · exact Nat.le_of_lt (getVarint32_rest_lt _ _ _ hv)
  · simp only [Option.some.injEq, Prod.mk.injEq] at hv
    simp [hv.2]

theorem readRecordTagged_rest_lt (tag : Nat) (afterTag : List Nat) (r : RecordParts)
    (h : readRecordTagged tag afterTag = Except.ok r) : r.rest.length < afterTag.length := by
  simp only [readRecordTagged] at h
  split at h
  · split at h
    · simp at h
    · rename_i cf in1 hv
      have h1 := ifVarint_rest_le _ afterTag cf in1 hv
      split at h
      · simp at h
      · rename_i key in2 hk
        split at h
        · simp at h
        · rename_i value in3 hval
          simp only [Except.ok.injEq] at h
          have hr : r.rest = in3 := by rw [← h]
          have h2 := getLengthPrefixedSlice_rest_lt in1 key in2 hk
          have h3 := getLengthPrefixedSlice_rest_lt in2 value in3 hval
          rw [hr]; omega
  · split at h
    · split at h
      · simp at h
      · rename_i cf in1 hv
        have h1 := ifVarint_rest_le _ afterTag cf in1 hv
        split at h
        · simp at h
        · rename_i key in2 hk
          simp only [Except.ok.injEq] at h
          have hr : r.rest = in2 := by rw [← h]
          have h2 := getLengthPrefixedSlice_rest_lt in1 key in2 hk
          rw [hr]; omega
    · split at h
      · split at h
        · simp at h
        · rename_i cf in1 hv
          have h1 := ifVarint_rest_le _ afterTag cf in1 hv
          split at h
          · simp at h
          · rename_i key in2 hk
            split at h
            · simp at h
            · rename_i value in3 hval
              simp only [Except.ok.injEq] at h
              have hr : r.rest = in3 := by rw [← h]
              have h2 := getLengthPrefixedSlice_rest_lt in1 key in2 hk
              have h3 := getLengthPrefixedSlice_rest_lt in2 value in3 hval
              rw [hr]; omega
      · split at h
        · split at h
          · simp at h
          · rename_i blob in1 hb
            simp only [Except.ok.injEq] at h
            have hr : r.rest = in1 := by rw [← h]
            have h2 := getLengthPrefixedSlice_rest_lt afterTag blob in1 hb
            rw [hr]; exact h2
        · simp at h

theorem readRecord_rest_lt (input : List Nat) (r : RecordParts)
    (h : readRecordFromWriteBatch input = Except.ok r) : r.rest.length < input.length := by
  match input with
  | [] => simp [readRecordFromWriteBatch] at h
  | tagByte :: afterTag =>
    simp only [readRecordFromWriteBatch] at h
    have := readRecordTagged_rest_lt (tagByte % 256) afterTag r h
    simp only [List.length_cons]
    omega

theorem readRecordTagged_tag_eq (tag : Nat) (afterTag : List Nat) (r : RecordParts)
    (h : readRecordTagged tag afterTag = Except.ok r) : r.tag = tag := by
  simp only [readRecordTagged] at h
  split at h
  · split at h
    · simp at h
    · split at h
      · simp at h
      · split at h
        · simp at h
        · simp only [Except.ok.injEq] at h
          rw [← h]
  · split at h
    · split at h
      · simp at h
      · split at h
        · simp at h
        · simp only [Except.ok.injEq] at h
          rw [← h]
    · split at h
      · split at h
        · simp at h
        · split at h
          · simp at h
          · split at h
            · simp at h
            · simp only [Except.ok.injEq] at h
              rw [← h]
      · split at h
        · split at h
          · simp at h
          · simp only [Except.ok.injEq] at h
            rw [← h]
        · simp at h

theorem readRecordTagged_tag_known (tag : Nat) (afterTag : List Nat) (r : RecordParts)
    (h : readRecordTagged tag afterTag = Except.ok r) :
    tag = kTypeColumnFamilyValue ∨ tag = kTypeValue ∨
    tag = kTypeColumnFamilyDeletion ∨ tag = kTypeColumnFamilySingleDeletion ∨
    tag = kTypeDeletion ∨ tag = kTypeSingleDeletion ∨
    tag = kTypeColumnFamilyMerge ∨ tag = kTypeMerge ∨ tag = kTypeLogData := by
  simp only [readRecordTagged] at h
  split at h
  · rename_i hc; tauto
  · split at h
    · rename_i hc; tauto
    · split at h
      · rename_i hc; tauto
      · split at h
        · rename_i hc; tauto
        · simp at h

theorem dispatchRecord_benign {σ : Type} (h : Handler σ) (hb : BenignHandler h)
    (input : List Nat) (r : RecordParts) (s : σ)
    (hr : readRecordFromWriteBatch input = Except.ok r) :
    (dispatchRecord h s r).2.1 = Status.ok ∧
    (dispatchRecord h s r).2.2 = decide (r.tag ≠ kTypeLogData) := by
  obtain ⟨hp, hd, hsd, hm, _⟩ := hb
  match input with
  | [] => simp [readRecordFromWriteBatch] at hr
  | tagByte :: afterTag =>
    simp only [readRecordFromWriteBatch] at hr
    have htag := readRecordTagged_tag_eq _ _ _ hr
    have hknown := readRecordTagged_tag_known _ _ _ hr
    rcases hknown with h1 | h1 | h1 | h1 | h1 | h1 | h1 | h1 | h1 <;>
      rw [h1] at htag <;>
      simp [dispatchRecord, htag, hp, hd, hsd, hm,
        kTypeDeletion, kTypeValue, kTypeMerge, kTypeLogData, kTypeColumnFamilyDeletion,
        kTypeColumnFamilyValue, kTypeColumnFamilyMerge, kTypeSingleDeletion,
        kTypeColumnFamilySingleDeletion]

theorem decodeFixed32_encode_append (n : Nat) (l : List Nat) :
    decodeFixed32 (encodeFixed32 n ++ l) = n % 4294967296 := by
  simp only [decodeFixed32, encodeFixed32, byteAt, List.cons_append, List.getD_cons_zero,
    List.getD_cons_succ]
  omega

theorem encodeFixed32_decode_cons (b0 b1 b2 b3 : Nat) (rest : List Nat)
    (h0 : b0 < 256) (h1 : b1 < 256) (h2 : b2 < 256) (h3 : b3 < 256) :
    encodeFixed32 (decodeFixed32 (b0 :: b1 :: b2 :: b3 :: rest)) = [b0, b1, b2, b3] := by
  simp only [decodeFixed32, encodeFixed32, byteAt, List.getD_cons_zero, List.getD_cons_succ,
    List.cons.injEq]
  rw [Nat.mod_eq_of_lt h0, Nat.mod_eq_of_lt h1, Nat.mod_eq_of_lt h2, Nat.mod_eq_of_lt h3]
  refine ⟨?_, ?_, ?_, ?_, trivial⟩ <;> omega

theorem encodeFixed32_decode_take (bs : List Nat) (h4 : 4 ≤ bs.length)
    (hb : ∀ x ∈ bs, x < 256) :
    encodeFixed32 (decodeFixed32 bs) = bs.take 4 := by
  match bs with
  | [] => simp at h4
  | [b0] => simp at h4
  | [b0, b1] => simp at h4
  | [b0, b1, b2] => simp at h4
  | b0 :: b1 :: b2 :: b3 :: rest =>
    have e : List.take 4 (b0 :: b1 :: b2 :: b3 :: rest) = [b0, b1, b2, b3] := rfl
    rw [e]
    exact encodeFixed32_decode_cons b0 b1 b2 b3 rest
      (hb b0 (by simp)) (hb b1 (by simp)) (hb b2 (by simp)) (hb b3 (by simp))

theorem nonLogCount_cons (r : RecordParts) (rs : List RecordParts) :
    nonLogCount (r :: rs) = (if r.tag = kTypeLogData then 0 else 1) + nonLogCount rs := by
  simp only [nonLogCount, List.filter_cons]
  by_cases ht : r.tag = kTypeLogData <;> simp [ht] <;> omega

theorem iterateLoop_benign {σ : Type} (h : Handler σ) (hb : BenignHandler h) (c : Nat) :
    ∀ (fuel : Nat) (input : List Nat) (recs : List RecordParts), DecodesTo input recs →
      input.length < fuel → ∀ (s : σ) (found : Nat),
      ∃ s1, iterateLoop h c fuel s input found =
        (s1, wrongCountCheck (found + nonLogCount recs) c) := by
  intro fuel
  induction fuel with
  | zero => intro input recs hdec hlt; omega
  | succ f ih =>
    intro input recs hdec hlt s found
    cases hdec with
    | nil =>
      refine ⟨s, ?_⟩
      simp [iterateLoop, nonLogCount]
    | cons hread hrest =>
      rename_i r rs
      have hne : input ≠ [] := by
        intro he; rw [he] at hread; simp [readRecordFromWriteBatch] at hread
      have hcont := hb.2.2.2.2 s
      have hdisp := dispatchRecord_benign h hb input r s hread
      have hlen := readRecord_rest_lt input r hread
      obtain ⟨s1, hs1⟩ := ih r.rest rs hrest (by omega)
        (dispatchRecord h s r).1 (if (dispatchRecord h s r).2.2 then found + 1 else found)
      refine ⟨s1, ?_⟩
      simp only [iterateLoop]
      rw [if_neg (by simp [hne, hcont]), hread]
      simp only [hdisp.1, if_pos rfl]
      rw [hs1, nonLogCount_cons, hdisp.2]
      have harg : (if decide (r.tag ≠ kTypeLogData) then found + 1 else found) + nonLogCount rs =
          found + ((if r.tag = kTypeLogData then 0 else 1) + nonLogCount rs) := by
        by_cases ht : r.tag = kTypeLogData <;> simp [ht] <;> omega
      rw [harg]
      simp

theorem unitHandler_benign : BenignHandler unitHandler :=
  ⟨fun _ _ _ _ => rfl, fun _ _ _ => rfl, fun _ _ _ => rfl, fun _ _ _ _ => rfl, fun _ => rfl⟩

/-! ## Claim theorems -/

/-- C2: for every buffer shorter than 12 bytes, `Iterate` returns
Corruption "malformed WriteBatch (too small)"; and for every buffer whose
records all decode cleanly but whose number of non-log-data records
differs from the header count field, `Iterate` (run with a visitor that
neither errors nor stops) returns Corruption "WriteBatch has wrong
count". -/
theorem iterate_corruption_gates :
    (∀ (σ : Type) (h : Handler σ) (s : σ) (b : WriteBatch), b.rep_.length < 12 →
      WriteBatch.Iterate b h s = (s, Status.corruption "malformed WriteBatch (too small)")) ∧
    (∀ (σ : Type) (h : Handler σ) (s : σ) (b : WriteBatch) (recs : List RecordParts),
      BenignHandler h → 12 ≤ b.rep_.length → DecodesTo (b.rep_.drop 12) recs →
      nonLogCount recs ≠ WriteBatchInternal.Count b →
      (WriteBatch.Iterate b h s).2 = Status.corruption "WriteBatch has wrong count") := by
  constructor
  · intro σ h s b hlt
    simp [WriteBatch.Iterate, kHeader, hlt]
  · intro σ h s b recs hb hge hdec hcnt
    obtain ⟨s1, hs1⟩ := iterateLoop_benign h hb (WriteBatchInternal.Count b)
      (b.rep_.length + 1) (b.rep_.drop 12) recs hdec (by simp; omega) s 0
    simp only [WriteBatch.Iterate, kHeader]
    rw [if_neg (by omega), hs1]
    simp [wrongCountCheck, hcnt]

/-- Witness for C2: a 0-byte buffer trips the too-small gate; a header
claiming one record over an empty payload trips the wrong-count gate. -/
theorem iterate_corruption_gates_witness :
    WriteBatch.Iterate (WriteBatch.ofRep []) unitHandler () =
      ((), Status.corruption "malformed WriteBatch (too small)") ∧
    (WriteBatch.Iterate (WriteBatch.ofRep ([0, 0, 0, 0, 0, 0, 0, 0] ++ [1, 0, 0, 0]))
        unitHandler ()).2 = Status.corruption "WriteBatch has wrong count" := by
  constructor
  · exact iterate_corruption_gates.1 Unit unitHandler () (WriteBatch.ofRep []) (by decide)
  · exact iterate_corruption_gates.2 Unit unitHandler ()
      (WriteBatch.ofRep ([0, 0, 0, 0, 0, 0, 0, 0] ++ [1, 0, 0, 0])) []
      unitHandler_benign (by decide) DecodesTo.nil (by decide)

/-- C6 (amended): when the visitor's continuation predicate is false at a
record boundary, the iteration loop dispatches nothing further (the
handler state is returned unchanged), and the call returns OK only if the
records counted so far already match the header count — otherwise it
returns Corruption "WriteBatch has wrong count". -/
theorem iterate_stops_at_continue_boundary {σ : Type} (h : Handler σ)
    (hdrCount fuel : Nat) (s : σ) (input : List Nat) (found : Nat)
    (hstop : h.Continue s = false) :
    iterateLoop h hdrCount fuel s input found =
      (s, if found = hdrCount then Status.ok
          else Status.corruption "WriteBatch has wrong count") := by
  cases fuel with
  | zero => simp [iterateLoop, wrongCountCheck]
  | succ f => simp [iterateLoop, wrongCountCheck, hstop]

/-- Witness for C6 (amended): a visitor stopped after one record, with
one record still pending against a header count of 2. -/
theorem iterate_stops_at_continue_boundary_witness :
    iterateLoop stopAfterOneHandler 2 9 1 [1, 1, 97, 1, 98] 1 =
      (1, Status.corruption "WriteBatch has wrong count") := by
  have h := iterate_stops_at_continue_boundary stopAfterOneHandler 2 9 1
    [1, 1, 97, 1, 98] 1 (by decide)
  exact h.trans (by decide)

/-- Counterexample for C6 as stated: on a well-formed two-put batch, a
visitor that stops after the first record makes `Iterate` return
Corruption "WriteBatch has wrong count", not OK (the state 1 confirms
exactly one record was dispatched). -/
theorem iterate_stop_returns_wrong_count_not_ok :
    WriteBatch.Iterate twoPutBatch stopAfterOneHandler 0 =
      (1, Status.corruption "WriteBatch has wrong count") ∧
    (WriteBatch.Iterate twoPutBatch stopAfterOneHandler 0).2 ≠ Status.ok := by
  constructor
  · decide
  · decide

/-- C7: `ReadRecordFromWriteBatch` on an empty input cursor fails with an
error instead of reading past the end (the tag-byte read fails if the
input is empty). -/
theorem readRecord_fails_on_empty_input :
    readRecordFromWriteBatch [] =
      Except.error (Status.corruption "empty WriteBatch record") := rfl

/-- C8: after a single `Put(key="abc", value="xyz")` on a fresh batch,
the payload after the 12-byte header is exactly
`[kTypeValue, 0x03, 'a','b','c', 0x03, 'x','y','z']`, the count is 1,
`HasPut` holds and `HasDelete`/`HasSingleDelete`/`HasMerge` do not. -/
theorem single_put_encoding_scenario :
    (WriteBatchInternal.Put WriteBatch.new 0 [97, 98, 99] [120, 121, 122]).rep_.drop 12 =
      [kTypeValue, 3, 97, 98, 99, 3, 120, 121, 122] ∧
    WriteBatch.Count (WriteBatchInternal.Put WriteBatch.new 0 [97, 98, 99] [120, 121, 122]) = 1 ∧
    (WriteBatch.HasPut (WriteBatchInternal.Put WriteBatch.new 0 [97, 98, 99] [120, 121, 122])).1
      = true ∧
    (WriteBatch.HasDelete (WriteBatchInternal.Put WriteBatch.new 0 [97, 98, 99] [120, 121, 122])).1
      = false ∧
    (WriteBatch.HasSingleDelete
      (WriteBatchInternal.Put WriteBatch.new 0 [97, 98, 99] [120, 121, 122])).1 = false ∧
    (WriteBatch.HasMerge (WriteBatchInternal.Put WriteBatch.new 0 [97, 98, 99] [120, 121, 122])).1
      = false := by
  refine ⟨by decide, by decide, by decide, by decide, by decide, by decide⟩

theorem lor_even (a b : Nat) (ha : a % 2 = 0) (hb : b % 2 = 0) : (a ||| b) % 2 = 0 := by
  have h := Nat.testBit_lor a b 0
  rw [Nat.testBit_zero, Nat.testBit_zero, Nat.testBit_zero, ha, hb] at h
  have h2 : ¬((a ||| b) % 2 = 1) := by
    intro hx
    rw [hx] at h
    simp at h
  omega

theorem readRecord_tag_known (input : List Nat) (r : RecordParts)
    (h : readRecordFromWriteBatch input = Except.ok r) :
    r.tag = kTypeColumnFamilyValue ∨ r.tag = kTypeValue ∨
    r.tag = kTypeColumnFamilyDeletion ∨ r.tag = kTypeColumnFamilySingleDeletion ∨
    r.tag = kTypeDeletion ∨ r.tag = kTypeSingleDeletion ∨
    r.tag = kTypeColumnFamilyMerge ∨ r.tag = kTypeMerge ∨ r.tag = kTypeLogData := by
  match input with
  | [] => simp [readRecordFromWriteBatch] at h
  | t :: a =>
    simp only [readRecordFromWriteBatch] at h
    have e := readRecordTagged_tag_eq _ _ _ h
    have k := readRecordTagged_tag_known _ _ _ h
    rw [← e] at k
    exact k

theorem iterateLoop_classifier_even (c : Nat) :
    ∀ (fuel : Nat) (input : List Nat) (found s : Nat), s % 2 = 0 →
      (iterateLoop classifierHandler c fuel s input found).1 % 2 = 0 := by
  intro fuel
  induction fuel with
  | zero => intro input found s hs; simpa [iterateLoop] using hs
  | succ f ih =>
    intro input found s hs
    simp only [iterateLoop]
    split
    · simpa using hs
    · split
      · simpa using hs
      · rename_i x r heq
        have hkn := readRecord_tag_known _ _ heq
        rcases hkn with h1 | h1 | h1 | h1 | h1 | h1 | h1 | h1 | h1 <;>
          simp only [dispatchRecord, classifierHandler, h1,
            kTypeDeletion, kTypeValue, kTypeMerge, kTypeLogData, kTypeColumnFamilyDeletion,
            kTypeColumnFamilyValue, kTypeColumnFamilyMerge, kTypeSingleDeletion,
            kTypeColumnFamilySingleDeletion] <;>
          simp <;>
          first
            | exact ih _ _ _ (lor_even _ _ hs (by decide))
            | exact ih _ _ _ hs
            | simpa using hs

/-- C10: on a batch whose DEFERRED bit is set and whose buffer makes the
classifier iteration fail with a corruption error, `ComputeContentFlags`
ignores that error: it returns the flags the classifier accumulated from
the records decoded before the failure, stores them with the DEFERRED bit
cleared, and subsequent queries (`ComputeContentFlags`, `HasPut`) answer
from that cached partial classification without re-deriving it. -/
theorem computeContentFlags_discards_iterate_error (b : WriteBatch) (msg : String)
    (hdef : b.content_flags_ &&& ContentFlags.DEFERRED ≠ 0)
    (herr : (WriteBatch.Iterate b classifierHandler 0).2 = Status.corruption msg) :
    WriteBatch.ComputeContentFlags b =
      ((WriteBatch.Iterate b classifierHandler 0).1,
        { b with content_flags_ := (WriteBatch.Iterate b classifierHandler 0).1 }) ∧
    (WriteBatch.Iterate b classifierHandler 0).1 &&& ContentFlags.DEFERRED = 0 ∧
    WriteBatch.ComputeContentFlags
        { b with content_flags_ := (WriteBatch.Iterate b classifierHandler 0).1 } =
      ((WriteBatch.Iterate b classifierHandler 0).1,
        { b with content_flags_ := (WriteBatch.Iterate b classifierHandler 0).1 }) ∧
    (WriteBatch.HasPut
        { b with content_flags_ := (WriteBatch.Iterate b classifierHandler 0).1 }).1 =
      decide ((WriteBatch.Iterate b classifierHandler 0).1 &&& ContentFlags.HAS_PUT ≠ 0) := by
  have heven : (WriteBatch.Iterate b classifierHandler 0).1 % 2 = 0 := by
    simp only [WriteBatch.Iterate]
    split
    · simp
    · exact iterateLoop_classifier_even _ _ _ _ _ (by decide)
  have hz : (WriteBatch.Iterate b classifierHandler 0).1 &&& ContentFlags.DEFERRED = 0 := by
    rw [show ContentFlags.DEFERRED = 1 from rfl, Nat.and_one_is_mod]
    exact heven
  refine ⟨?_, hz, ?_, ?_⟩
  · simp [WriteBatch.ComputeContentFlags, hdef]
  · simp [WriteBatch.ComputeContentFlags, hz]
  · simp [WriteBatch.HasPut, WriteBatch.ComputeContentFlags, hz]

/-- Witness for C10: a DEFERRED batch whose payload holds one valid put
record followed by an unknown tag; the classifier fails with corruption
yet the flags (HAS_PUT only) are cached with DEFERRED cleared. -/
theorem computeContentFlags_discards_iterate_error_witness :
    WriteBatch.ComputeContentFlags corruptTailBatch =
      ((WriteBatch.Iterate corruptTailBatch classifierHandler 0).1,
        { corruptTailBatch with
            content_flags_ := (WriteBatch.Iterate corruptTailBatch classifierHandler 0).1 }) ∧
    (WriteBatch.Iterate corruptTailBatch classifierHandler 0).1 &&& ContentFlags.DEFERRED = 0 ∧
    WriteBatch.ComputeContentFlags
        { corruptTailBatch with
            content_flags_ := (WriteBatch.Iterate corruptTailBatch classifierHandler 0).1 } =
      ((WriteBatch.Iterate corruptTailBatch classifierHandler 0).1,
        { corruptTailBatch with
            content_flags_ := (WriteBatch.Iterate corruptTailBatch classifierHandler 0).1 }) ∧
    (WriteBatch.HasPut
        { corruptTailBatch with
            content_flags_ := (WriteBatch.Iterate corruptTailBatch classifierHandler 0).1 }).1 =
      decide ((WriteBatch.Iterate corruptTailBatch classifierHandler 0).1 &&&
        ContentFlags.HAS_PUT ≠ 0) :=
  computeContentFlags_discards_iterate_error corruptTailBatch "unknown WriteBatch tag"
    (by decide) (by decide)

/-- C1 (amended): the applier's sequence number advances by exactly one
per record for puts and merges (including records skipped by the
column-family seek or the recovery log-number check), and for deletes and
single-deletes in every case except one: a delete skipped by the
pre-existence delete filter (filtering enabled, key reported absent)
leaves the sequence number unchanged. -/
theorem memTableInserter_sequence_advance (env : MemEnv) (ins : MemTableInserter)
    (cf : Nat) (key value : List Nat) :
    (MemTableInserter.PutCF env ins cf key value).1.sequence_ = ins.sequence_ + 1 ∧
    (MemTableInserter.MergeCF env ins cf key value).1.sequence_ = ins.sequence_ + 1 ∧
    (MemTableInserter.DeleteCF env ins cf key).1.sequence_ =
      (if (MemTableInserter.SeekToColumnFamily env ins cf).1 = true ∧
          ins.dont_filter_deletes_ = false ∧ env.filterDeletes cf = true ∧
          env.keyMayExist ins.sequence_ key = false
       then ins.sequence_ else ins.sequence_ + 1) ∧
    (MemTableInserter.SingleDeleteCF env ins cf key).1.sequence_ =
      (if (MemTableInserter.SeekToColumnFamily env ins cf).1 = true ∧
          ins.dont_filter_deletes_ = false ∧ env.filterDeletes cf = true ∧
          env.keyMayExist ins.sequence_ key = false
       then ins.sequence_ else ins.sequence_ + 1) := by
  have hdel : ∀ dt, (MemTableInserter.DeleteImpl env ins cf key dt).1.sequence_ =
      (if (MemTableInserter.SeekToColumnFamily env ins cf).1 = true ∧
          ins.dont_filter_deletes_ = false ∧ env.filterDeletes cf = true ∧
          env.keyMayExist ins.sequence_ key = false
       then ins.sequence_ else ins.sequence_ + 1) := by
    intro dt
    cases hseek : MemTableInserter.SeekToColumnFamily env ins cf with
    | mk fnd st =>
      cases fnd
      · simp [MemTableInserter.DeleteImpl, hseek]
      · simp only [MemTableInserter.DeleteImpl, hseek]
        by_cases hf : ins.dont_filter_deletes_ = false ∧ env.filterDeletes cf = true
        · by_cases hk : env.keyMayExist ins.sequence_ key = false
          · simp [hf, hk]
          · simp [hf, hk]
        · have hcneg : ¬(ins.dont_filter_deletes_ = false ∧ env.filterDeletes cf = true ∧
              env.keyMayExist ins.sequence_ key = false) := fun hc => hf ⟨hc.1, hc.2.1⟩
          simp [hf, hcneg]
  refine ⟨?_, ?_, hdel kTypeDeletion, hdel kTypeSingleDeletion⟩
  · cases hseek : MemTableInserter.SeekToColumnFamily env ins cf with
    | mk fnd st =>
      cases fnd
      · simp [MemTableInserter.PutCF, hseek]
      · simp only [MemTableInserter.PutCF, hseek]
        split_ifs <;> first | rfl | (split <;> rfl) | simp
  · cases hseek : MemTableInserter.SeekToColumnFamily env ins cf with
    | mk fnd st =>
      cases fnd
      · simp [MemTableInserter.MergeCF, hseek]
      · simp only [MemTableInserter.MergeCF, hseek]
        split_ifs <;> first | rfl | (split <;> rfl) | simp

/-- Counterexample for C1 as stated: a delete skipped by the delete
filter does not advance the sequence number (it stays at 5 instead of
becoming 6). -/
theorem memTableInserter_filtered_delete_keeps_sequence :
    (MemTableInserter.DeleteCF filterEverythingEnv inserterAtFive 0 [107]).1.sequence_ =
      inserterAtFive.sequence_ ∧
    (MemTableInserter.DeleteCF filterEverythingEnv inserterAtFive 0 [107]).1.sequence_ ≠
      inserterAtFive.sequence_ + 1 := by
  constructor
  · decide
  · decide

theorem getD_take_of_lt (l : List Nat) (i n : Nat) (h : i < n) :
    (l.take n).getD i 0 = l.getD i 0 := by
  simp [List.getD_eq_getElem?_getD, List.getElem?_take_of_lt h]

theorem decodeFixed64_congr_take8 (l1 l2 : List Nat) (h : l1.take 8 = l2.take 8) :
    decodeFixed64 l1 = decodeFixed64 l2 := by
  have e : ∀ i, i < 8 → l1.getD i 0 = l2.getD i 0 := by
    intro i hi
    rw [← getD_take_of_lt l1 i 8 hi, ← getD_take_of_lt l2 i 8 hi, h]
  simp only [decodeFixed64, byteAt]
  rw [e 0 (by omega), e 1 (by omega), e 2 (by omega), e 3 (by omega),
    e 4 (by omega), e 5 (by omega), e 6 (by omega), e 7 (by omega)]

/-- C9: for batches of at least 12 bytes, `Append` concatenates the
payloads (dst's payload then src's bytes 12..end), sets dst's count to
the sum of the counts (as a uint32), ORs the content-flag words, and
keeps dst's first 8 bytes — the sequence field — unchanged, so src's
sequence (never read) is discarded. -/
theorem append_concatenates_payloads (dst src : WriteBatch)
    (hd : 12 ≤ dst.rep_.length) (hs : 12 ≤ src.rep_.length) :
    (WriteBatchInternal.Append dst src).rep_.drop 12 =
      dst.rep_.drop 12 ++ src.rep_.drop 12 ∧
    WriteBatchInternal.Count (WriteBatchInternal.Append dst src) =
      (WriteBatchInternal.Count dst + WriteBatchInternal.Count src) % 4294967296 ∧
    (WriteBatchInternal.Append dst src).content_flags_ =
      dst.content_flags_ ||| src.content_flags_ ∧
    (WriteBatchInternal.Append dst src).rep_.take 8 = dst.rep_.take 8 ∧
    WriteBatchInternal.Sequence (WriteBatchInternal.Append dst src) =
      WriteBatchInternal.Sequence dst := by
  have h8 : (dst.rep_.take 8).length = 8 := by
    simp [List.length_take]
    omega
  have hrep : (WriteBatchInternal.Append dst src).rep_ =
      dst.rep_.take 8 ++
        (encodeFixed32 (WriteBatchInternal.Count dst + WriteBatchInternal.Count src) ++
          (dst.rep_.drop 12 ++ src.rep_.drop 12)) := by
    simp [WriteBatchInternal.Append, WriteBatchInternal.SetCount, kHeader, List.append_assoc]
  have htake : (WriteBatchInternal.Append dst src).rep_.take 8 = dst.rep_.take 8 := by
    rw [hrep, List.take_append_eq_append_take, h8]
    simp [List.take_take]
  refine ⟨?_, ?_, ?_, htake, ?_⟩
  · rw [hrep, show dst.rep_.take 8 ++
        (encodeFixed32 (WriteBatchInternal.Count dst + WriteBatchInternal.Count src) ++
          (dst.rep_.drop 12 ++ src.rep_.drop 12)) =
        (dst.rep_.take 8 ++
          encodeFixed32 (WriteBatchInternal.Count dst + WriteBatchInternal.Count src)) ++
          (dst.rep_.drop 12 ++ src.rep_.drop 12) from by simp [List.append_assoc]]
    exact List.drop_left' (by simp [h8, encodeFixed32])
  · simp only [WriteBatchInternal.Count]
    rw [hrep, List.drop_left' h8, decodeFixed32_encode_append]
    rfl
  · simp [WriteBatchInternal.Append, WriteBatchInternal.SetCount]
  · exact decodeFixed64_congr_take8 _ _ htake

/-- Witness for C9: a one-put dst (sequence 0) appended with a one-delete
src carrying sequence 99. -/
theorem append_concatenates_payloads_witness :
    (WriteBatchInternal.Append (WriteBatchInternal.Put WriteBatch.new 0 [97] [49])
        (WriteBatchInternal.Delete (WriteBatchInternal.SetSequence WriteBatch.new 99) 0 [98])).rep_.drop 12 =
      (WriteBatchInternal.Put WriteBatch.new 0 [97] [49]).rep_.drop 12 ++
        (WriteBatchInternal.Delete (WriteBatchInternal.SetSequence WriteBatch.new 99) 0 [98]).rep_.drop 12 ∧
    WriteBatchInternal.Count (WriteBatchInternal.Append (WriteBatchInternal.Put WriteBatch.new 0 [97] [49])
        (WriteBatchInternal.Delete (WriteBatchInternal.SetSequence WriteBatch.new 99) 0 [98])) =
      (WriteBatchInternal.Count (WriteBatchInternal.Put WriteBatch.new 0 [97] [49]) +
        WriteBatchInternal.Count (WriteBatchInternal.Delete (WriteBatchInternal.SetSequence WriteBatch.new 99) 0 [98])) % 4294967296 ∧
    (WriteBatchInternal.Append (WriteBatchInternal.Put WriteBatch.new 0 [97] [49])
        (WriteBatchInternal.Delete (WriteBatchInternal.SetSequence WriteBatch.new 99) 0 [98])).content_flags_ =
      (WriteBatchInternal.Put WriteBatch.new 0 [97] [49]).content_flags_ |||
        (WriteBatchInternal.Delete (WriteBatchInternal.SetSequence WriteBatch.new 99) 0 [98]).content_flags_ ∧
    (WriteBatchInternal.Append (WriteBatchInternal.Put WriteBatch.new 0 [97] [49])
        (WriteBatchInternal.Delete (WriteBatchInternal.SetSequence WriteBatch.new 99) 0 [98])).rep_.take 8 =
      (WriteBatchInternal.Put WriteBatch.new 0 [97] [49]).rep_.take 8 ∧
    WriteBatchInternal.Sequence (WriteBatchInternal.Append (WriteBatchInternal.Put WriteBatch.new 0 [97] [49])
        (WriteBatchInternal.Delete (WriteBatchInternal.SetSequence WriteBatch.new 99) 0 [98])) =
      WriteBatchInternal.Sequence (WriteBatchInternal.Put WriteBatch.new 0 [97] [49]) :=
  append_concatenates_payloads (WriteBatchInternal.Put WriteBatch.new 0 [97] [49])
    (WriteBatchInternal.Delete (WriteBatchInternal.SetSequence WriteBatch.new 99) 0 [98])
    (by decide) (by decide)

/-! ### C5: sharing of the save-point stack between copies -/

/-- A fresh batch for the copy scenario. -/
def savePointSrcBatch : WriteBatchRef :=
  { rep_ := List.replicate 12 0, content_flags_ := 0, save_points_ := none }

/-- The heap after the source batch pushes one save-point. -/
def c5World1 : SavePointsHeap := (refSetSavePoint [] savePointSrcBatch).1

/-- The source batch after its push. -/
def c5Src : WriteBatchRef := (refSetSavePoint [] savePointSrcBatch).2

/-- The copy-constructed batch (pointer copied). -/
def c5Copy : WriteBatchRef := refCopy c5Src

/-- The heap after the copy rolls back. -/
def c5World2 : SavePointsHeap := (refRollbackToSavePoint c5World1 c5Copy).1

/-- C5 (code bug): the copy constructor copies the `save_points_` pointer,
so source and copy observe one shared stack: after the copy's rollback
pops it, the source's save-point is gone and the source's own rollback
reports NotFound — the copy is not deep over the save-point stack (and
both destructors would `delete` the same `SavePoints` object). -/
theorem copy_constructor_shares_savepoint_stack :
    refStack c5World1 c5Src = [SavePoint.mk 12 0 0] ∧
    c5Copy.save_points_ = c5Src.save_points_ ∧
    refStack c5World1 c5Copy = [SavePoint.mk 12 0 0] ∧
    (refRollbackToSavePoint c5World1 c5Copy).2.2 = Status.ok ∧
    refStack c5World2 c5Src = [] ∧
    (refRollbackToSavePoint c5World2 c5Src).2.2 = Status.notFound := by
  refine ⟨by decide, by decide, by decide, by decide, by decide, by decide⟩

/-! ### C4: rollback when the recorded save-point size is 12 -/

/-- Sequence 5, two save-points pushed at header-only size 12, then one
put: rolling back pops a save-point whose recorded size is 12. -/
def seqFiveDoubleSavePointBatch : WriteBatch :=
  WriteBatchInternal.Put
    (WriteBatch.SetSavePoint (WriteBatch.SetSavePoint
      (WriteBatchInternal.SetSequence WriteBatch.new 5))) 0 [97] [49]

/-- Counterexample for C4 as stated: the popped save-point's recorded
size is 12, yet rollback neither zeroes the buffer (the sequence byte 5
survives) nor empties the save-point stack — no full clear happens. -/
theorem rollback_header_size_savepoint_not_full_clear :
    seqFiveDoubleSavePointBatch.save_points_ =
      some [SavePoint.mk 12 0 0, SavePoint.mk 12 0 0] ∧
    (WriteBatch.RollbackToSavePoint seqFiveDoubleSavePointBatch).2 = Status.ok ∧
    (WriteBatch.RollbackToSavePoint seqFiveDoubleSavePointBatch).1.rep_ ≠
      List.replicate 12 0 ∧
    (WriteBatch.RollbackToSavePoint seqFiveDoubleSavePointBatch).1.save_points_ ≠
      some [] := by
  refine ⟨by decide, by decide, by decide, by decide⟩

/-- C4 (amended): when the popped save-point's recorded size is 12 and
the buffer has grown past it, rollback takes the truncation branch, not a
full clear: the buffer is cut back to its first 12 bytes (the sequence
bytes survive), the count field is rewritten to the recorded count, the
recorded content-flag word is restored, and only that one save-point is
popped.  (The full-clear branch fires only for a recorded size of 0.) -/
theorem rollback_header_size_savepoint_truncates (b : WriteBatch) (sp : SavePoint)
    (rest : List SavePoint) (hsp : b.save_points_ = some (sp :: rest))
    (hsz : sp.size = 12) (hne : b.rep_.length ≠ 12) :
    WriteBatch.RollbackToSavePoint b =
      ({ rep_ := (resizeList b.rep_ 12).take 8 ++ encodeFixed32 sp.count ++
           (resizeList b.rep_ 12).drop 12
         content_flags_ := sp.content_flags
         save_points_ := some rest }, Status.ok) := by
  simp only [WriteBatch.RollbackToSavePoint, hsp]
  rw [if_neg (by simpa [hsz] using fun he => hne he.symm), if_neg (by simp [hsz])]
  simp [WriteBatchInternal.SetCount, hsz]

/-- A batch with one pushed save-point of recorded size 12 (count 3,
flags 7) whose buffer has since grown to 13 bytes. -/
def oddSavePointBatch : WriteBatch :=
  { rep_ := [9, 0, 0, 0, 0, 0, 0, 0, 1, 0, 0, 0, 55]
    content_flags_ := 4
    save_points_ := some [SavePoint.mk 12 3 7] }

/-- Witness for C4 (amended). -/
theorem rollback_header_size_savepoint_truncates_witness :
    WriteBatch.RollbackToSavePoint oddSavePointBatch =
      ({ rep_ := (resizeList oddSavePointBatch.rep_ 12).take 8 ++ encodeFixed32 3 ++
           (resizeList oddSavePointBatch.rep_ 12).drop 12
         content_flags_ := 7
         save_points_ := some [] }, Status.ok) :=
  rollback_header_size_savepoint_truncates oddSavePointBatch (SavePoint.mk 12 3 7) []
    rfl rfl (by decide)

/-! ### C3: rollback restores the state at push time -/

theorem setCount_append_parts (x : WriteBatch) (n : Nat) (E : List Nat)
    (h : 12 ≤ x.rep_.length) :
    ((WriteBatchInternal.SetCount x n).rep_ ++ E).take 8 = x.rep_.take 8 ∧
    ((WriteBatchInternal.SetCount x n).rep_ ++ E).drop 12 = x.rep_.drop 12 ++ E ∧
    x.rep_.length ≤ ((WriteBatchInternal.SetCount x n).rep_ ++ E).length := by
  have h8 : (x.rep_.take 8).length = 8 := by simp [List.length_take]; omega
  have h12 : (x.rep_.take 8 ++ encodeFixed32 n).length = 12 := by
    simp [h8, encodeFixed32]
  refine ⟨?_, ?_, ?_⟩
  · simp only [WriteBatchInternal.SetCount]
    rw [List.append_assoc, List.append_assoc, List.take_append_eq_append_take, h8]
    simp [List.take_take]
  · simp only [WriteBatchInternal.SetCount]
    rw [List.append_assoc (x.rep_.take 8 ++ encodeFixed32 n)]
    exact List.drop_left' h12
  · simp only [WriteBatchInternal.SetCount]
    simp [h8, encodeFixed32, List.length_drop]
    omega

theorem applyOp_inv (op : BatchOp) (x : WriteBatch) (h : 12 ≤ x.rep_.length) :
    (applyOp op x).rep_.take 8 = x.rep_.take 8 ∧
    (∃ t, (applyOp op x).rep_.drop 12 = x.rep_.drop 12 ++ t) ∧
    x.rep_.length ≤ (applyOp op x).rep_.length ∧
    (applyOp op x).save_points_ = x.save_points_ := by
  have h8 : (x.rep_.take 8).length = 8 := by simp [List.length_take]; omega
  cases op with
  | put cf key value =>
    have hp := setCount_append_parts x (WriteBatchInternal.Count x + 1)
      ((if cf = 0 then [kTypeValue] else kTypeColumnFamilyValue :: putVarint32 cf) ++
        putLengthPrefixedSlice key ++ putLengthPrefixedSlice value) h
    simp only [applyOp, WriteBatchInternal.Put, List.append_assoc] at *
    exact ⟨hp.1, ⟨_, hp.2.1⟩, hp.2.2, rfl⟩
  | del cf key =>
    have hp := setCount_append_parts x (WriteBatchInternal.Count x + 1)
      ((if cf = 0 then [kTypeDeletion] else kTypeColumnFamilyDeletion :: putVarint32 cf) ++
        putLengthPrefixedSlice key) h
    simp only [applyOp, WriteBatchInternal.Delete, List.append_assoc] at *
    exact ⟨hp.1, ⟨_, hp.2.1⟩, hp.2.2, rfl⟩
  | singleDel cf key =>
    have hp := setCount_append_parts x (WriteBatchInternal.Count x + 1)
      ((if cf = 0 then [kTypeSingleDeletion]
        else kTypeColumnFamilySingleDeletion :: putVarint32 cf) ++
        putLengthPrefixedSlice key) h
    simp only [applyOp, WriteBatchInternal.SingleDelete, List.append_assoc] at *
    exact ⟨hp.1, ⟨_, hp.2.1⟩, hp.2.2, rfl⟩
  | merge cf key value =>
    have hp := setCount_append_parts x (WriteBatchInternal.Count x + 1)
      ((if cf = 0 then [kTypeMerge] else kTypeColumnFamilyMerge :: putVarint32 cf) ++
        putLengthPrefixedSlice key ++ putLengthPrefixedSlice value) h
    simp only [applyOp, WriteBatchInternal.Merge, List.append_assoc] at *
    exact ⟨hp.1, ⟨_, hp.2.1⟩, hp.2.2, rfl⟩
  | putLogData blob =>
    refine ⟨?_, ⟨kTypeLogData :: putLengthPrefixedSlice blob, ?_⟩, ?_, rfl⟩
    · simp only [applyOp, WriteBatch.PutLogData]
      rw [List.take_append_eq_append_take]
      simp
      omega
    · simp only [applyOp, WriteBatch.PutLogData]
      rw [List.drop_append_eq_append_drop]
      have : 12 - x.rep_.length = 0 := by omega
      simp [this]
    · simp [applyOp, WriteBatch.PutLogData]
  | queryFlags =>
    simp only [applyOp, WriteBatch.ComputeContentFlags]
    split
    · exact ⟨rfl, ⟨[], by simp⟩, Nat.le_refl _, rfl⟩
    · exact ⟨rfl, ⟨[], by simp⟩, Nat.le_refl _, rfl⟩

theorem applyOps_inv (ops : List BatchOp) :
    ∀ (x : WriteBatch), 12 ≤ x.rep_.length →
    (applyOps ops x).rep_.take 8 = x.rep_.take 8 ∧
    (∃ t, (applyOps ops x).rep_.drop 12 = x.rep_.drop 12 ++ t) ∧
    x.rep_.length ≤ (applyOps ops x).rep_.length ∧
    (applyOps ops x).save_points_ = x.save_points_ := by
  induction ops with
  | nil => intro x h; exact ⟨rfl, ⟨[], by simp [applyOps]⟩, Nat.le_refl _, rfl⟩
  | cons op ops ih =>
    intro x h
    obtain ⟨h1, ⟨t1, h2⟩, h3, h4⟩ := applyOp_inv op x h
    obtain ⟨g1, ⟨t2, g2⟩, g3, g4⟩ := ih (applyOp op x) (by omega)
    refine ⟨?_, ⟨t1 ++ t2, ?_⟩, by simpa [applyOps] using Nat.le_trans h3 g3, ?_⟩
    · simpa [applyOps] using g1.trans h1
    · show (applyOps ops (applyOp op x)).rep_.drop 12 = x.rep_.drop 12 ++ (t1 ++ t2)
      rw [g2, h2, List.append_assoc]
    · show (applyOps ops (applyOp op x)).save_points_ = x.save_points_
      rw [g4, h4]

/-- C3 (amended): for a byte-valued batch, a pushed save-point, and any
sequence of subsequent appends and content-flag queries among which at
least one operation appended bytes (the buffer length changed),
`RollbackToSavePoint` succeeds and restores the buffer, the count, and
the content-flag word — including the DEFERRED bit — byte-identically to
the state at push time.  (When nothing was appended, the no-op branch is
taken: buffer and count are trivially unchanged, but a flag word
recomputed by a query since the push is kept, not restored.) -/
theorem rollback_restores_state_after_appends (b : WriteBatch)
    (hbytes : ∀ x ∈ b.rep_, x < 256) (hlen : 12 ≤ b.rep_.length) (ops : List BatchOp)
    (hchanged : (applyOps ops (WriteBatch.SetSavePoint b)).rep_.length ≠ b.rep_.length) :
    (WriteBatch.RollbackToSavePoint (applyOps ops (WriteBatch.SetSavePoint b))).2 =
      Status.ok ∧
    (WriteBatch.RollbackToSavePoint (applyOps ops (WriteBatch.SetSavePoint b))).1.rep_ =
      b.rep_ ∧
    (WriteBatch.RollbackToSavePoint
        (applyOps ops (WriteBatch.SetSavePoint b))).1.content_flags_ = b.content_flags_ ∧
    WriteBatch.Count
        (WriteBatch.RollbackToSavePoint (applyOps ops (WriteBatch.SetSavePoint b))).1 =
      WriteBatch.Count b := by
  have hrep0 : (WriteBatch.SetSavePoint b).rep_ = b.rep_ := rfl
  obtain ⟨h1, ⟨t, h2⟩, h3, h4⟩ :=
    applyOps_inv ops (WriteBatch.SetSavePoint b) (by rw [hrep0]; exact hlen)
  rw [hrep0] at h1 h2 h3
  have hsp0 : (applyOps ops (WriteBatch.SetSavePoint b)).save_points_ =
      some (SavePoint.mk b.rep_.length (WriteBatch.Count b) b.content_flags_ ::
        b.save_points_.getD []) := by
    rw [h4]; rfl
  have hlen12 : ((applyOps ops (WriteBatch.SetSavePoint b)).rep_.take 12).length = 12 := by
    simp only [List.length_take]
    omega
  have hr0 : resizeList (applyOps ops (WriteBatch.SetSavePoint b)).rep_ b.rep_.length =
      (applyOps ops (WriteBatch.SetSavePoint b)).rep_.take b.rep_.length := by
    simp [resizeList, Nat.sub_eq_zero_of_le h3]
  have hdlen : (b.rep_.drop 12).length = b.rep_.length - 12 := by simp
  have hB2split : (applyOps ops (WriteBatch.SetSavePoint b)).rep_.take b.rep_.length =
      (applyOps ops (WriteBatch.SetSavePoint b)).rep_.take 12 ++ b.rep_.drop 12 := by
    conv_lhs =>
      rw [← List.take_append_drop 12 (applyOps ops (WriteBatch.SetSavePoint b)).rep_, h2]
    rw [List.take_append_eq_append_take, hlen12, List.take_take]
    have hm : b.rep_.length ⊓ 12 = 12 := by omega
    rw [hm]
    congr 1
    exact List.take_left' (by omega)
  have htake8 : ((applyOps ops (WriteBatch.SetSavePoint b)).rep_.take b.rep_.length).take 8 =
      b.rep_.take 8 := by
    rw [List.take_take]
    have hm : (8 : Nat) ⊓ b.rep_.length = 8 := by omega
    rw [hm, h1]
  have hdrop12 : ((applyOps ops (WriteBatch.SetSavePoint b)).rep_.take b.rep_.length).drop 12 =
      b.rep_.drop 12 := by
    rw [hB2split]
    exact List.drop_left' hlen12
  have henc : encodeFixed32 (WriteBatch.Count b) = (b.rep_.drop 8).take 4 := by
    have := encodeFixed32_decode_take (b.rep_.drop 8) (by simp; omega)
      (fun x hx => hbytes x (List.drop_subset 8 b.rep_ hx))
    exact this
  have hfinal : b.rep_.take 8 ++ (b.rep_.drop 8).take 4 ++ b.rep_.drop 12 = b.rep_ := by
    rw [List.take_drop]
    have h88 : b.rep_.take 8 = (b.rep_.take 12).take 8 := by
      rw [List.take_take]
      norm_num
    rw [h88, List.append_assoc, ← List.append_assoc ((b.rep_.take 12).take 8),
      List.take_append_drop, List.take_append_drop]
  simp only [WriteBatch.RollbackToSavePoint, hsp0]
  rw [if_neg (fun he => hchanged he.symm),
    if_neg (by intro he; have he2 : b.rep_.length = 0 := he; omega)]
  simp only [WriteBatchInternal.SetCount]
  rw [hr0, htake8, hdrop12, henc, hfinal]
  exact ⟨trivial, rfl, trivial, rfl⟩

/-- Counterexample for C3 as stated: a batch adopted from raw bytes
carries DEFERRED flags (= 1); after a save-point push, a content-flag
query (allowed by the claim) recomputes and caches HAS_PUT (= 2); the
subsequent rollback takes the no-op branch and keeps the computed word 2,
which is not byte-identical to the pushed flag word 1. -/
theorem rollback_noop_branch_keeps_computed_flags :
    (WriteBatch.SetSavePoint deferredOnePutBatch).content_flags_ = ContentFlags.DEFERRED ∧
    (WriteBatch.RollbackToSavePoint
        (WriteBatch.ComputeContentFlags (WriteBatch.SetSavePoint deferredOnePutBatch)).2).2 =
      Status.ok ∧
    (WriteBatch.RollbackToSavePoint
        (WriteBatch.ComputeContentFlags
          (WriteBatch.SetSavePoint deferredOnePutBatch)).2).1.content_flags_ =
      ContentFlags.HAS_PUT ∧
    ContentFlags.HAS_PUT ≠ ContentFlags.DEFERRED := by
  refine ⟨by decide, by decide, by decide, by decide⟩

/-- Witness for C3 (amended): one put appended after the push; rollback
restores buffer, count, and the DEFERRED flag word of the raw-adopted
batch. -/
theorem rollback_restores_state_after_appends_witness :
    (WriteBatch.RollbackToSavePoint
        (applyOps [BatchOp.put 0 [97] [98]] (WriteBatch.SetSavePoint deferredOnePutBatch))).2 =
      Status.ok ∧
    (WriteBatch.RollbackToSavePoint
        (applyOps [BatchOp.put 0 [97] [98]]
          (WriteBatch.SetSavePoint deferredOnePutBatch))).1.rep_ = deferredOnePutBatch.rep_ ∧
    (WriteBatch.RollbackToSavePoint
        (applyOps [BatchOp.put 0 [97] [98]]
          (WriteBatch.SetSavePoint deferredOnePutBatch))).1.content_flags_ =
      deferredOnePutBatch.content_flags_ ∧
    WriteBatch.Count
        (WriteBatch.RollbackToSavePoint
          (applyOps [BatchOp.put 0 [97] [98]]
            (WriteBatch.SetSavePoint deferredOnePutBatch))).1 =
      WriteBatch.Count deferredOnePutBatch :=
  rollback_restores_state_after_appends deferredOnePutBatch (by decide) (by decide)
    [BatchOp.put 0 [97] [98]] (by decide)

end RocksModel
